import Mathlib

/-!
Verification development for the multi-agent web-development workflow
(`src/ui/multi_agent.py`).  The Python source is shallowly embedded:
strings are `List Char`, the regex-based HTML extractor is an explicit
leftmost / shortest-match search, the conversation driver is a step
function over a stream of generated messages, and the approval gate is a
pure function over an environment recording the outcome of the local
write and of the remote push.
-/

/-! ## Definitions: the shallow embedding of the source -/

/-- Python `str.strip` whitespace set restricted to ASCII: space, tab,
newline, carriage return, vertical tab, form feed. -/
def isPySpace (c : Char) : Bool :=
  c == ' ' || c == '\t' || c == '\n' || c == '\r' || c == '\x0b' || c == '\x0c'

/-- Python `str.upper` on one character, modelled for the ASCII range
(the only range exercised by the workflow markers and tokens): lowercase
letters map to uppercase, everything else is unchanged. -/
def pyUpperChar (c : Char) : Char :=
  match c with
  | 'a' => 'A' | 'b' => 'B' | 'c' => 'C' | 'd' => 'D' | 'e' => 'E'
  | 'f' => 'F' | 'g' => 'G' | 'h' => 'H' | 'i' => 'I' | 'j' => 'J'
  | 'k' => 'K' | 'l' => 'L' | 'm' => 'M' | 'n' => 'N' | 'o' => 'O'
  | 'p' => 'P' | 'q' => 'Q' | 'r' => 'R' | 's' => 'S' | 't' => 'T'
  | 'u' => 'U' | 'v' => 'V' | 'w' => 'W' | 'x' => 'X' | 'y' => 'Y'
  | 'z' => 'Z'
  | other => other

/-- Python `str.upper` lifted to a whole string. -/
def pyUpper (s : List Char) : List Char := s.map pyUpperChar

/-- Python `str.strip`: drop leading whitespace, then drop trailing
whitespace (implemented by reversing, dropping, reversing back). -/
def pyStrip (s : List Char) : List Char :=
  ((s.dropWhile isPySpace).reverse.dropWhile isPySpace).reverse

/-- Initial-segment test: `listStarts pat l` holds when `pat` is an
initial segment of `l` (exact character match). -/
def listStarts : List Char → List Char → Bool
  | [], _ => true
  | _ :: _, [] => false
  | p :: ps, c :: cs => p == c && listStarts ps cs

/-- Python substring test `pat in l`. -/
def listContains (pat : List Char) : List Char → Bool
  | [] => listStarts pat []
  | c :: cs => listStarts pat (c :: cs) || listContains pat cs

/-- Case-insensitive initial-segment match, the semantics of a literal
regex fragment under `re.IGNORECASE`. -/
def ciStarts : List Char → List Char → Bool
  | [], _ => true
  | _ :: _, [] => false
  | p :: ps, c :: cs => pyUpperChar p == pyUpperChar c && ciStarts ps cs

/-- Python slicing `l[-n:]`: the last `n` elements. -/
def lastN (n : Nat) (l : List α) : List α := l.drop (l.length - n)

/-- The opening of the fenced block matched by
`re.compile(r"```html(.*?)```", re.DOTALL | re.IGNORECASE)`. -/
def openTag : List Char := "```html".toList

/-- The closing triple backtick of the fenced block. -/
def closeMark : List Char := "```".toList

/-- Non-greedy interior: the shortest prefix of the list that is
followed by a closing triple backtick, mirroring the non-greedy group
of the regex under `DOTALL`. -/
def interiorUpTo : List Char → Option (List Char)
  | [] => none
  | c :: cs =>
    if ciStarts closeMark (c :: cs) then some []
    else
      match interiorUpTo cs with
      | some t => some (c :: t)
      | none => none

/-- Leftmost search for the full fenced block, mirroring
`_HTML_RE.search`: the first position where ```` ```html ```` matches and
a closing ```` ``` ```` occurs later wins, and its non-greedy interior is
returned. -/
def searchFence : List Char → Option (List Char)
  | [] => none
  | c :: cs =>
    if ciStarts openTag (c :: cs) then
      match interiorUpTo ((c :: cs).drop 7) with
      | some interior => some interior
      | none => searchFence cs
    else searchFence cs

/-- Embedding of `_extract_html` from the source: the stripped interior
of the first ```` ```html ```` fence when one exists, otherwise the
stripped whole text. -/
def extractHtml (text : List Char) : List Char :=
  match searchFence text with
  | some interior => pyStrip interior
  | none => pyStrip text

/-- One entry of the conversation history: `ChatMessageContent` as the
driver observes it, with `name` (`None` for the human user message) and
`content`. -/
structure Message where
  name : Option String
  content : List Char
deriving DecidableEq

/-- The reviewer completion marker scanned for by the workflow. -/
def marker : List Char := "READY FOR USER APPROVAL".toList

/-- One message passes the check inside
`ApprovalTerminationStrategy.should_agent_terminate`: name equals
`"ProductOwner"`, content is truthy (non-empty), and the marker occurs
in the stripped, uppercased content. -/
def poApprovedMsg (m : Message) : Bool :=
  decide (m.name = some "ProductOwner") && decide (m.content ≠ []) &&
    listContains marker (pyUpper (pyStrip m.content))

/-- Embedding of `ApprovalTerminationStrategy.should_agent_terminate`:
walk the last five history messages newest-first and return true on the
first one passing `poApprovedMsg`. -/
def shouldAgentTerminate (history : List Message) : Bool :=
  ((lastN 5 history).reverse).any poApprovedMsg

/-- Modelled from the spec (section 4.2 Completion Detector): true iff
the most recent among the last five messages whose speaker is the
Reviewer contains the marker; earlier reviewer messages are ignored. -/
def shouldAgentTerminateSpec (history : List Message) : Bool :=
  match ((lastN 5 history).reverse).find? (fun m => decide (m.name = some "ProductOwner")) with
  | some m => listContains marker (pyUpper (pyStrip m.content))
  | none => false

/-- Decision comparison used by `handle_approval` (line 1007 of the
source): `user_decision.upper() != "APPROVED"` — uppercase only, the
input is not stripped. -/
def gateApproves (decision : List Char) : Bool :=
  decide (pyUpper decision = "APPROVED".toList)

/-- Decision comparison used on the terminal path of `run_multi_agent`
(lines 925 to 926 of the source): the raw input is stripped when read
and then uppercased for the comparison. -/
def terminalApproves (raw : List Char) : Bool :=
  decide (pyUpper (pyStrip raw) = "APPROVED".toList)

/-- Modelled from the spec (section 4.2): `isApproved(decision)` is true
iff `decision.token.trim().toUpper() == "APPROVED"` exactly. -/
def isApprovedSpec (decision : List Char) : Bool :=
  decide (pyUpper (pyStrip decision) = "APPROVED".toList)

/-- Scan of the chat history performed by both `handle_approval` and the
terminal branch of `run_multi_agent`: first message named
`"SoftwareEngineer"` whose extracted HTML is truthy and longer than 50
characters. -/
def findHtml : List Message → Option (List Char)
  | [] => none
  | m :: rest =>
    if m.name = some "SoftwareEngineer" then
      let e := extractHtml m.content
      if e ≠ [] ∧ e.length > 50 then some e else findHtml rest
    else findHtml rest

/-- Side effects the gate can perform, in order of execution. -/
inductive Ev
  | write (content : List Char)
  | push
deriving DecidableEq

/-- Environment of one `handle_approval` call: whether the local
`write_text` succeeds (it raises otherwise, with text `writeErr`),
whether `execute_git_push_with_script` reports success, the rendering of
`HTML_OUTPUT_FILE.resolve()`, and the three generated GitHub URLs
(`None` when the repository URL is absent or malformed). -/
structure GateEnv where
  writeOk : Bool
  writeErr : List Char
  pushOk : Bool
  outputPath : List Char
  pagesUrl : Option (List Char)
  fileUrl : Option (List Char)
  rawUrl : Option (List Char)
deriving DecidableEq

/-- Python `f"{x}"` on an optional string: `None` renders as the literal
text `None`. -/
def pyShow (o : Option (List Char)) : List Char :=
  match o with
  | some s => s
  | none => "None".toList

/-- Rejection message built at line 1010 of the source; it interpolates
the literal decision the user typed (quotes written as `\x27`). -/
def notApprovedMsg (d : List Char) : List Char :=
  "❌ Solution not approved. User typed \x27".toList ++ d ++
    "\x27 instead of \x27APPROVED\x27.".toList

/-- Failure message built at line 1033 of the source when no valid HTML
is found in the chat history. -/
def noArtifactMsg : List Char := "❌ No valid HTML code found.".toList

/-- Failure message built at line 1043 of the source when the local save
raises; the exception text is interpolated. -/
def saveFailedMsg (err : List Char) : List Char :=
  "❌ Failed to save HTML file: ".toList ++ err

/-- Success-path message assembled at lines 1078 to 1086 of the source:
on a successful push it lists the generated URLs, otherwise it reports
the local file path; the artifact size is always appended. -/
def resultMessage (env : GateEnv) (html : List Char) : List Char :=
  "✅ Web app created and saved!\n".toList ++
    (if env.pushOk then
      (match env.pagesUrl with
       | some u => "🔗 View your live app: ".toList ++ u ++ "\n".toList
       | none => []) ++
      "📄 View source code: ".toList ++ pyShow env.fileUrl ++ "\n".toList ++
      "⬇️ Direct download: ".toList ++ pyShow env.rawUrl ++ "\n".toList
     else
      "📁 Local file: ".toList ++ env.outputPath ++ "\n".toList) ++
    "📊 File size: ".toList ++ (Nat.repr html.length).toList ++ " characters".toList

/-- Return value of `handle_approval`: the pair `(html_code, message)`
the Python function returns, together with the trace of side effects it
performed (attempted local write, push-script invocation). -/
structure GateResult where
  html : Option (List Char)
  msg : List Char
  trace : List Ev
deriving DecidableEq

/-- Embedding of `handle_approval(chat_history, user_decision)`.  A
`none` decision is replaced by `"APPROVED"` (lines 1000 to 1001); a
decision whose uppercasing is not exactly `"APPROVED"` is rejected with
no side effect; otherwise the first valid SoftwareEngineer artifact is
looked up, saved locally, and only then is the push script invoked. -/
def handle_approval (env : GateEnv) (chat_history : List Message)
    (user_decision : Option (List Char)) : GateResult :=
  let d := user_decision.getD ("APPROVED".toList)
  if gateApproves d then
    match findHtml chat_history with
    | none => { html := none, msg := noArtifactMsg, trace := [] }
    | some code =>
      if env.writeOk then
        { html := some code, msg := resultMessage env code,
          trace := [Ev.write code, Ev.push] }
      else
        { html := none, msg := saveFailedMsg env.writeErr, trace := [Ev.write code] }
  else
    { html := none, msg := notApprovedMsg d, trace := [] }

/-- One item produced by `chat.invoke()`: either a generated agent
message (already appended to the group-chat history when yielded) or a
raised generation failure. -/
inductive StreamItem
  | msg (m : Message)
  | err (e : List Char)
deriving DecidableEq

/-- Driver-loop state: the recorded group-chat history, the sub-list of
messages the driver actually processed (not skipped by the repeated
BusinessAnalyst guard), and the counters and flags of the source loop. -/
structure LoopState where
  history : List Message
  processed : List Message
  messageCount : Nat
  baQuestions : Nat
  baAsked : Bool
  safetyReached : Bool
  approvalReady : Bool
deriving DecidableEq

/-- Why the turn loop ended. -/
inductive LoopStop
  | ready
  | safety
  | exhausted
deriving DecidableEq

/-- Synthetic completion message appended at lines 866 to 871 of the
source when the BusinessAnalyst has asked too many questions. -/
def syntheticBA : Message :=
  { name := some "BusinessAnalyst",
    content := "Requirements are clear based on the initial request. Ready for development.".toList }

/-- One iteration of the `async for content in chat.invoke()` loop
(lines 814 to 874 of the source), in source order: skip a repeated
BusinessAnalyst message, update the flags and counters, detect the
ProductOwner approval marker, apply the safety bound, and possibly
append the synthetic BusinessAnalyst completion message. -/
def stepMsg (st : LoopState) (m : Message) : LoopState × Option LoopStop :=
  let hist := st.history ++ [m]
  if st.baAsked ∧ m.name = some "BusinessAnalyst" then
    ({ st with history := hist }, none)
  else
    let baAsked1 := if m.name = some "BusinessAnalyst" then true else st.baAsked
    let baAsked2 := if m.name = some "User" then false else baAsked1
    let mc := st.messageCount + 1
    let baQ := if m.name = some "BusinessAnalyst" then st.baQuestions + 1 else st.baQuestions
    let st1 : LoopState :=
      { st with
          history := hist, processed := st.processed ++ [m],
          messageCount := mc, baQuestions := baQ, baAsked := baAsked2 }
    if m.name = some "ProductOwner" ∧ listContains marker (pyUpper m.content) then
      ({ st1 with approvalReady := true }, some LoopStop.ready)
    else if mc > 20 then
      ({ st1 with safetyReached := true }, some LoopStop.safety)
    else if m.name = some "BusinessAnalyst" ∧ baQ > 2 then
      ({ st1 with history := hist ++ [syntheticBA], baAsked := false }, none)
    else
      (st1, none)

/-- The turn loop over the stream of generated items.  A generation
failure is not caught anywhere in `run_multi_agent`, so it propagates
as an error. -/
def runLoop (st : LoopState) : List StreamItem → Except (List Char) (LoopState × LoopStop)
  | [] => Except.ok (st, LoopStop.exhausted)
  | StreamItem.err e :: _ => Except.error e
  | StreamItem.msg m :: rest =>
    match stepMsg st m with
    | (st', none) => runLoop st' rest
    | (st', some stop) => Except.ok (st', stop)

/-- Post-loop check at lines 877 to 879 of the source: some message in
the last five history entries is a ProductOwner message whose uppercased
content contains the marker (no strip on this path). -/
def approvalInHistory (hist : List Message) : Bool :=
  (lastN 5 hist).any fun m =>
    decide (m.name = some "ProductOwner") && decide (m.content ≠ []) &&
      listContains marker (pyUpper m.content)

/-- Terminal branch outcomes of one workflow run (lines 895 to 981 of
the source): the safety-limit return, the Streamlit hand-off awaiting
approval, a terminal deployment (push attempted after local save), the
missing-artifact report, the user rejection echoing what was typed, and
the incomplete outcome when the ProductOwner never approved. -/
inductive Outcome
  | safetyLimitReached
  | awaitingApproval
  | deployed (pushOk : Bool)
  | noValidHtml
  | userRejected (typed : List Char)
  | incomplete
deriving DecidableEq

/-- Observable result of one `run_multi_agent` call. -/
structure RunOutput where
  outcome : Outcome
  history : List Message
  processed : List Message
  messageCount : Nat
  events : List Ev
deriving DecidableEq

/-- Environment of one run: the terminal `input()` answer at the
approval prompt and the push-script result. -/
structure RunEnv where
  approvalInput : List Char
  pushOk : Bool
deriving DecidableEq

/-- Initial state: the user request is placed in history before the
loop starts; the human message carries no agent name. -/
def initialState (userInput : List Char) : LoopState :=
  { history := [{ name := none, content := userInput }], processed := [],
    messageCount := 0, baQuestions := 0, baAsked := false,
    safetyReached := false, approvalReady := false }

/-- Post-loop branching of `run_multi_agent`: the safety-limit check
comes first, then the approval check; in terminal mode an approved run
saves the first valid artifact and invokes the push script, in
Streamlit mode the run stops awaiting the approval decision. -/
def finishRun (env : RunEnv) (streamlitMode : Bool) (st : LoopState) : RunOutput :=
  if st.safetyReached then
    { outcome := Outcome.safetyLimitReached, history := st.history,
      processed := st.processed, messageCount := st.messageCount, events := [] }
  else if approvalInHistory st.history then
    if streamlitMode then
      { outcome := Outcome.awaitingApproval, history := st.history,
        processed := st.processed, messageCount := st.messageCount, events := [] }
    else
      let typed := pyStrip env.approvalInput
      if decide (pyUpper typed = "APPROVED".toList) then
        match findHtml st.history with
        | some html =>
          { outcome := Outcome.deployed env.pushOk, history := st.history,
            processed := st.processed, messageCount := st.messageCount,
            events := [Ev.write html, Ev.push] }
        | none =>
          { outcome := Outcome.noValidHtml, history := st.history,
            processed := st.processed, messageCount := st.messageCount, events := [] }
      else
        { outcome := Outcome.userRejected typed, history := st.history,
          processed := st.processed, messageCount := st.messageCount, events := [] }
  else
    { outcome := Outcome.incomplete, history := st.history,
      processed := st.processed, messageCount := st.messageCount, events := [] }

/-- Embedding of `run_multi_agent(user_input)`: seed the history, run
the turn loop over the generated stream, then take the post-loop
branches.  A raised generation failure leaves the function as an
error. -/
def runMultiAgent (env : RunEnv) (streamlitMode : Bool) (userInput : List Char)
    (stream : List StreamItem) : Except (List Char) RunOutput :=
  match runLoop (initialState userInput) stream with
  | Except.error e => Except.error e
  | Except.ok (st, _) => Except.ok (finishRun env streamlitMode st)

/-- Concrete gate environment used by witnesses and counterexamples. -/
def envSample : GateEnv :=
  { writeOk := true, writeErr := "disk full".toList, pushOk := false,
    outputPath := "/workspace/index.html".toList, pagesUrl := none,
    fileUrl := none, rawUrl := none }

/-- Modelled from the spec (section 4.4 step 2): a history message
holds a usable artifact when its speaker is the Builder and its
extracted artifact passes the minimal length threshold. -/
def builderArtifactOk (m : Message) : Bool :=
  decide (m.name = some "SoftwareEngineer") &&
  decide (extractHtml m.content ≠ []) &&
  decide ((extractHtml m.content).length > 50)

/-- Sample history with a reviewer approval but no builder artifact. -/
def histNoArtifact : List Message :=
  [{ name := some "ProductOwner", content := "READY FOR USER APPROVAL".toList }]

/-- Sample builder message holding a valid artifact. -/
def builderMsg : Message :=
  { name := some "SoftwareEngineer",
    content := "```html<html><body>0123456789012345678901234567890123456789012345</body></html>```".toList }

/-- The artifact extracted from `builderMsg`. -/
def builderHtml : List Char :=
  "<html><body>0123456789012345678901234567890123456789012345</body></html>".toList

/-- Sample history whose most recent reviewer message lacks the marker
while an older reviewer message within the last five carries it. -/
def histStaleApproval : List Message :=
  [{ name := some "ProductOwner", content := "READY FOR USER APPROVAL".toList },
   { name := some "ProductOwner", content := "not ready yet".toList }]

/-- Sample history with the marker spoken by a non-reviewer speaker. -/
def histSpoofed : List Message :=
  [{ name := some "SoftwareEngineer", content := "READY FOR USER APPROVAL".toList }]

/-- Modelled from the spec (section 4.5): a fence occurrence in `t` has
an opening tag at position `i` and a closing triple backtick at a
position `j` at least seven characters further on. -/
def fenceAtB (t : List Char) (i j : Nat) : Bool :=
  ciStarts openTag (t.drop i) && decide (i + 7 ≤ j) && ciStarts closeMark (t.drop j)

/-- Modelled from the spec (section 4.5): the first fence — the minimal
opening position admitting any closing position, paired with its
minimal closing position. -/
def isFirstFence (t : List Char) (i j : Nat) : Prop :=
  fenceAtB t i j = true ∧
  (∀ i', i' < i → ∀ j', j' < t.length → fenceAtB t i' j' = false) ∧
  (∀ j', j' < j → fenceAtB t i j' = false)

instance (t : List Char) (i j : Nat) : Decidable (isFirstFence t i j) := by
  unfold isFirstFence
  infer_instance

/-- Concrete run environment used by driver witnesses. -/
def envRunSample : RunEnv := { approvalInput := "APPROVED".toList, pushOk := false }

/-- Observable output of the run over the empty stream. -/
def outEmptyRun : RunOutput :=
  { outcome := Outcome.incomplete,
    history := [{ name := none, content := "hi".toList }],
    processed := [], messageCount := 0, events := [] }

/-- Number of BusinessAnalyst messages in a list. -/
def countBA (l : List Message) : Nat :=
  (l.filter (fun m => decide (m.name = some "BusinessAnalyst"))).length

/-- Two adjacent messages from the BusinessAnalyst somewhere in a
list. -/
def hasConsecutiveBA : List Message → Bool
  | m1 :: m2 :: rest =>
    (decide (m1.name = some "BusinessAnalyst") && decide (m2.name = some "BusinessAnalyst")) ||
      hasConsecutiveBA (m2 :: rest)
  | _ => false

/-- Loop invariant for the repeated-BusinessAnalyst skip: while the
`ba_asked` flag is clear no BusinessAnalyst message has been processed,
at most one ever is, and the question counter counts exactly the
processed BusinessAnalyst messages. -/
def baInv (st : LoopState) : Prop :=
  (st.baAsked = false → countBA st.processed = 0) ∧
  countBA st.processed ≤ 1 ∧
  st.baQuestions = countBA st.processed

/-- A stream item that is not a message from the human user. -/
def itemNotUser : StreamItem → Bool
  | StreamItem.msg m => decide (m.name ≠ some "User")
  | StreamItem.err _ => true

/-- First BusinessAnalyst message of the counterexample stream. -/
def baMsg1 : Message := { name := some "BusinessAnalyst", content := "q1".toList }

/-- Second BusinessAnalyst message of the counterexample stream. -/
def baMsg2 : Message := { name := some "BusinessAnalyst", content := "q2".toList }

/-- Recorded output of the run whose selector yields two consecutive
BusinessAnalyst messages. -/
def outConsecutiveBA : RunOutput :=
  { outcome := Outcome.incomplete,
    history := [{ name := none, content := "hi".toList }, baMsg1, baMsg2],
    processed := [baMsg1],
    messageCount := 1, events := [] }

/-! ## Theorems -/

example : extractHtml ("no fences here".toList) = "no fences here".toList := by decide

example : extractHtml ("pre ```html <p>x</p> ``` post".toList) = "<p>x</p>".toList := by decide

example : extractHtml ("a ```HTML\nbody\n``` z".toList) = "body".toList := by decide

example : extractHtml ("```html``` tail ```html x```".toList) = [] := by decide

theorem isPySpace_pyUpperChar (c : Char) : isPySpace (pyUpperChar c) = isPySpace c := by
  unfold pyUpperChar
  split <;> rfl

theorem dropWhile_pyUpper (l : List Char) :
    (pyUpper l).dropWhile isPySpace = pyUpper (l.dropWhile isPySpace) := by
  induction l with
  | nil => rfl
  | cons c t ih =>
    simp only [pyUpper, List.map_cons, List.dropWhile_cons, isPySpace_pyUpperChar]
    by_cases h : isPySpace c = true
    · simpa [h] using ih
    · simp [h, pyUpper]

theorem pyUpper_reverse (l : List Char) : pyUpper l.reverse = (pyUpper l).reverse := by
  unfold pyUpper
  exact List.map_reverse pyUpperChar l

theorem pyStrip_pyUpper (l : List Char) : pyStrip (pyUpper l) = pyUpper (pyStrip l) := by
  unfold pyStrip
  rw [dropWhile_pyUpper l, ← pyUpper_reverse, dropWhile_pyUpper, ← pyUpper_reverse]

theorem head_nonspace_of_upper (c : Char) (t : List Char) (a : Char) (r : List Char)
    (h : pyUpper (c :: t) = a :: r) (ha : isPySpace a = false) : isPySpace c = false := by
  have hc : pyUpperChar c = a := by
    have h2 := congrArg (fun x => x.headD 'A') h
    simpa [pyUpper] using h2
  rw [← isPySpace_pyUpperChar, hc]
  exact ha

theorem pyStrip_eq_self_of_upper_approved (s : List Char)
    (h : pyUpper s = "APPROVED".toList) : pyStrip s = s := by
  cases s with
  | nil => exact absurd h (by decide)
  | cons c t =>
    have h1 : pyUpper (c :: t) = 'A' :: "PPROVED".toList := h
    have hcsp : isPySpace c = false := head_nonspace_of_upper c t 'A' _ h1 (by decide)
    have hrev : pyUpper (c :: t).reverse = 'D' :: "EVORPPA".toList := by
      rw [pyUpper_reverse, h]
      rfl
    rcases hx : (c :: t).reverse with _ | ⟨d, u⟩
    · exact absurd hx (by simp)
    · have hrev2 : pyUpper (d :: u) = 'D' :: "EVORPPA".toList := by rw [← hx]; exact hrev
      have hdsp : isPySpace d = false := head_nonspace_of_upper d u 'D' _ hrev2 (by decide)
      unfold pyStrip
      rw [List.dropWhile_cons_of_neg (by simp [hcsp]), hx,
        List.dropWhile_cons_of_neg (by simp [hdsp]), ← hx, List.reverse_reverse]

theorem take3_ne {a b : List Char} (h3 : a.take 3 ≠ b.take 3) : a ≠ b :=
  fun h => h3 (by rw [h])

theorem notApprovedMsg_take3 (d : List Char) :
    (notApprovedMsg d).take 3 = ['❌', ' ', 'S'] := by
  unfold notApprovedMsg
  simp only [List.append_assoc]
  rw [List.take_append_of_le_length (by decide)]
  decide

theorem noArtifact_ne_notApproved (d : List Char) : noArtifactMsg ≠ notApprovedMsg d := by
  apply take3_ne
  rw [notApprovedMsg_take3]
  decide

theorem resultMessage_take3 (env : GateEnv) (html : List Char) :
    (resultMessage env html).take 3 = ['✅', ' ', 'W'] := by
  unfold resultMessage
  simp only [List.append_assoc]
  rw [List.take_append_of_le_length (by decide)]
  decide

theorem saveFailedMsg_take3 (err : List Char) :
    (saveFailedMsg err).take 3 = ['❌', ' ', 'F'] := by
  unfold saveFailedMsg
  rw [List.take_append_of_le_length (by decide)]
  decide

/-- C1: for every decision string whose trimmed, uppercased value is not
exactly `APPROVED`, `handle_approval` returns the not-approved result
carrying the literal rejected input, with an empty side-effect trace: no
local write and no push-capability invocation. -/
theorem C1_gate_rejects_unapproved (env : GateEnv) (hist : List Message) (d : List Char)
    (h : pyUpper (pyStrip d) ≠ "APPROVED".toList) :
    handle_approval env hist (some d) =
      { html := none, msg := notApprovedMsg d, trace := [] } ∧
    ∃ a b, notApprovedMsg d = a ++ d ++ b := by
  have hg : gateApproves d = false := by
    cases hx : gateApproves d
    · rfl
    · exfalso
      apply h
      have hup : pyUpper d = "APPROVED".toList := of_decide_eq_true hx
      have h2 : pyStrip (pyUpper d) = pyStrip ("APPROVED".toList) := by rw [hup]
      rw [pyStrip_pyUpper] at h2
      rw [h2]
      decide
  refine ⟨?_, "❌ Solution not approved. User typed \x27".toList,
    "\x27 instead of \x27APPROVED\x27.".toList, rfl⟩
  unfold handle_approval
  simp [hg]

/-- Witness for C1 at the concrete decision `deny`. -/
theorem C1_gate_rejects_unapproved_witness :
    handle_approval envSample [] (some ("deny".toList)) =
      { html := none, msg := notApprovedMsg ("deny".toList), trace := [] } ∧
    ∃ a b, notApprovedMsg ("deny".toList) = a ++ "deny".toList ++ b :=
  C1_gate_rejects_unapproved envSample [] ("deny".toList) (by decide)

/-- C2 counterexample: the decision `approved ` (trailing space) has
trimmed, uppercased value exactly `APPROVED` — the spec-level
`isApproved` and the terminal-path comparison both accept it — yet
`handle_approval` rejects it, because its comparison uppercases without
stripping. -/
theorem C2_counterexample :
    handle_approval envSample [] (some ("approved ".toList)) =
      { html := none, msg := notApprovedMsg ("approved ".toList), trace := [] } ∧
    isApprovedSpec ("approved ".toList) = true ∧
    terminalApproves ("approved ".toList) = true ∧
    gateApproves ("approved ".toList) = false := by decide

/-- C2 amended: the terminal-path comparison of `run_multi_agent` agrees
with the spec `isApproved` (trim then uppercase, exact match) on every
string, while the comparison inside `handle_approval` accepts exactly
the strings that already carry no edge whitespace: it is uppercase-only,
so `Approved` passes both, but `approved ` passes only the terminal
path. -/
theorem C2_amended (s : List Char) :
    terminalApproves s = isApprovedSpec s ∧
    (gateApproves s = true ↔ (isApprovedSpec s = true ∧ pyStrip s = s)) := by
  refine ⟨rfl, ?_, ?_⟩
  · intro hg
    have hup : pyUpper s = "APPROVED".toList := of_decide_eq_true hg
    have hstrip : pyStrip s = s := pyStrip_eq_self_of_upper_approved s hup
    refine ⟨?_, hstrip⟩
    unfold isApprovedSpec
    rw [hstrip]
    exact decide_eq_true hup
  · rintro ⟨hs, hstrip⟩
    have hup : pyUpper (pyStrip s) = "APPROVED".toList := of_decide_eq_true hs
    rw [hstrip] at hup
    exact decide_eq_true hup

/-- Witness for C2 amended at the concrete decision `Approved`. -/
theorem C2_amended_witness :
    terminalApproves ("Approved".toList) = isApprovedSpec ("Approved".toList) ∧
    (gateApproves ("Approved".toList) = true ↔
      (isApprovedSpec ("Approved".toList) = true ∧
       pyStrip ("Approved".toList) = "Approved".toList)) :=
  C2_amended ("Approved".toList)

/-- C10: a `None` decision is replaced by the literal token `APPROVED`
inside `handle_approval`, so the call behaves exactly as if the token
had been typed, and its result is never the not-approved rejection. -/
theorem C10_none_decision_means_approved (env : GateEnv) (hist : List Message) :
    handle_approval env hist none = handle_approval env hist (some ("APPROVED".toList)) ∧
    ∀ d, (handle_approval env hist none).msg ≠ notApprovedMsg d := by
  constructor
  · rfl
  · intro d
    unfold handle_approval
    simp only [Option.getD]
    rw [show gateApproves ("APPROVED".toList) = true from rfl]
    simp only [if_true]
    cases hf : findHtml hist with
    | none =>
      simpa using noArtifact_ne_notApproved d
    | some code =>
      cases hw : env.writeOk with
      | true =>
        simp only [if_true]
        apply take3_ne
        rw [resultMessage_take3, notApprovedMsg_take3]
        decide
      | false =>
        simp only [Bool.false_eq_true, if_false]
        apply take3_ne
        rw [saveFailedMsg_take3, notApprovedMsg_take3]
        decide

/-- Witness for C10 at a concrete environment and history. -/
theorem C10_none_decision_means_approved_witness :
    handle_approval envSample [] none = handle_approval envSample [] (some ("APPROVED".toList)) ∧
    ∀ d, (handle_approval envSample [] none).msg ≠ notApprovedMsg d :=
  C10_none_decision_means_approved envSample []

theorem findHtml_eq_find? (hist : List Message) :
    findHtml hist = (hist.find? builderArtifactOk).map (fun m => extractHtml m.content) := by
  induction hist with
  | nil => rfl
  | cons m rest ih =>
    by_cases hn : m.name = some "SoftwareEngineer"
    · by_cases hv : extractHtml m.content ≠ [] ∧ (extractHtml m.content).length > 50
      · rw [List.find?_cons_of_pos _ (by simp [builderArtifactOk, hn, hv.1, hv.2])]
        simp [findHtml, hn, hv.1, hv.2]
      · rw [List.find?_cons_of_neg _ (by
          simp only [builderArtifactOk, Bool.and_eq_true, decide_eq_true_eq]
          intro h
          exact hv ⟨h.1.2, h.2⟩)]
        rw [← ih]
        simp only [findHtml, if_pos hn]
        rw [if_neg hv]
    · rw [List.find?_cons_of_neg _ (by simp [builderArtifactOk, hn])]
      rw [← ih]
      simp only [findHtml, if_neg hn]

/-- C6: under an approved decision the gate selects its artifact from
the first history message named `SoftwareEngineer` whose extracted HTML
passes the minimal length threshold, scanning from the start; when no
such message exists it returns the distinct no-artifact result with no
write and no push. -/
theorem C6_first_builder_artifact (env : GateEnv) (hist : List Message) (d : List Char)
    (hap : gateApproves d = true) :
    findHtml hist = (hist.find? builderArtifactOk).map (fun m => extractHtml m.content) ∧
    (findHtml hist = none →
      handle_approval env hist (some d) =
        { html := none, msg := noArtifactMsg, trace := [] }) ∧
    (∀ d', noArtifactMsg ≠ notApprovedMsg d') := by
  refine ⟨findHtml_eq_find? hist, ?_, noArtifact_ne_notApproved⟩
  intro hnone
  unfold handle_approval
  simp [hap, hnone]

/-- Witness for C6: a history with no SoftwareEngineer artifact makes
an approved gate call fail with the no-artifact result. -/
theorem C6_first_builder_artifact_witness :
    findHtml histNoArtifact =
      (histNoArtifact.find? builderArtifactOk).map (fun m => extractHtml m.content) ∧
    (findHtml histNoArtifact = none →
      handle_approval envSample histNoArtifact (some ("APPROVED".toList)) =
        { html := none, msg := noArtifactMsg, trace := [] }) ∧
    (∀ d', noArtifactMsg ≠ notApprovedMsg d') :=
  C6_first_builder_artifact envSample histNoArtifact ("APPROVED".toList) (by decide)

/-- C7: on an approved decision with an artifact found, the local save
is the first side effect and the push is attempted only after it; when
the push fails after a successful save, the returned descriptor still
carries the artifact and reports the local save path. -/
theorem C7_save_before_push (env : GateEnv) (hist : List Message) (d html : List Char)
    (hap : gateApproves d = true) (hfind : findHtml hist = some html) :
    (handle_approval env hist (some d)).trace =
      (if env.writeOk then [Ev.write html, Ev.push] else [Ev.write html]) ∧
    (env.writeOk = true → env.pushOk = false →
      (handle_approval env hist (some d)).html = some html ∧
      ∃ a b, (handle_approval env hist (some d)).msg = a ++ env.outputPath ++ b) := by
  constructor
  · unfold handle_approval
    simp only [Option.getD, hap, if_true, hfind]
    cases env.writeOk <;> simp
  · intro hw hp
    constructor
    · unfold handle_approval
      simp [hap, hfind, hw]
    · refine ⟨"✅ Web app created and saved!\n".toList ++ "📁 Local file: ".toList,
        "\n".toList ++ "📊 File size: ".toList ++ (Nat.repr html.length).toList ++
          " characters".toList, ?_⟩
      unfold handle_approval
      simp only [Option.getD, hap, if_true, hfind, hw]
      unfold resultMessage
      rw [hp]
      simp [List.append_assoc]

/-- Witness for C7 at a concrete environment, history and artifact. -/
theorem C7_save_before_push_witness :
    (handle_approval envSample [builderMsg] (some ("APPROVED".toList))).trace =
      (if envSample.writeOk then [Ev.write builderHtml, Ev.push] else [Ev.write builderHtml]) ∧
    (envSample.writeOk = true → envSample.pushOk = false →
      (handle_approval envSample [builderMsg] (some ("APPROVED".toList))).html =
        some builderHtml ∧
      ∃ a b, (handle_approval envSample [builderMsg] (some ("APPROVED".toList))).msg =
        a ++ envSample.outputPath ++ b) :=
  C7_save_before_push envSample [builderMsg] ("APPROVED".toList) builderHtml
    (by decide) (by decide)

theorem shouldAgentTerminate_iff (history : List Message) :
    shouldAgentTerminate history = true ↔
      ∃ m, m ∈ lastN 5 history ∧ m.name = some "ProductOwner" ∧ m.content ≠ [] ∧
        listContains marker (pyUpper (pyStrip m.content)) = true := by
  unfold shouldAgentTerminate
  rw [List.any_eq_true]
  constructor
  · rintro ⟨m, hm, hp⟩
    rw [List.mem_reverse] at hm
    unfold poApprovedMsg at hp
    simp only [Bool.and_eq_true, decide_eq_true_eq] at hp
    exact ⟨m, hm, hp.1.1, hp.1.2, hp.2⟩
  · rintro ⟨m, hm, h1, h2, h3⟩
    exact ⟨m, List.mem_reverse.mpr hm, by simp [poApprovedMsg, h1, h2, h3]⟩

/-- C3 counterexample: the termination strategy fires on a history in
which an older reviewer message carries the marker while the most
recent reviewer message does not, so the decision is not taken by the
most recent reviewer message alone. -/
theorem C3_counterexample :
    shouldAgentTerminate histStaleApproval = true ∧
    shouldAgentTerminateSpec histStaleApproval = false := by decide

/-- C3 amended: the completion detector returns true iff some message
among the last five (not necessarily the most recent reviewer message)
has speaker `ProductOwner`, non-empty content, and the marker inside
its stripped, uppercased text; a history whose last five messages
contain no reviewer message never triggers it. -/
theorem C3_amended (history : List Message) :
    (shouldAgentTerminate history = true ↔
      ∃ m, m ∈ lastN 5 history ∧ m.name = some "ProductOwner" ∧ m.content ≠ [] ∧
        listContains marker (pyUpper (pyStrip m.content)) = true) ∧
    ((∀ m, m ∈ lastN 5 history → m.name ≠ some "ProductOwner") →
      shouldAgentTerminate history = false) := by
  refine ⟨shouldAgentTerminate_iff history, ?_⟩
  intro hno
  cases hx : shouldAgentTerminate history
  · rfl
  · obtain ⟨m, hm, h1, _⟩ := (shouldAgentTerminate_iff history).mp hx
    exact absurd h1 (hno m hm)

/-- Witness for C3 amended: a non-reviewer message carrying the marker
does not trigger termination. -/
theorem C3_amended_witness :
    (shouldAgentTerminate histSpoofed = true ↔
      ∃ m, m ∈ lastN 5 histSpoofed ∧ m.name = some "ProductOwner" ∧ m.content ≠ [] ∧
        listContains marker (pyUpper (pyStrip m.content)) = true) ∧
    shouldAgentTerminate histSpoofed = false :=
  ⟨(C3_amended histSpoofed).1, (C3_amended histSpoofed).2 (by decide)⟩

theorem interiorUpTo_take (l int : List Char) (h : interiorUpTo l = some int) :
    int = l.take int.length ∧ ciStarts closeMark (l.drop int.length) = true ∧
    ∀ j, j < int.length → ciStarts closeMark (l.drop j) = false := by
  induction l generalizing int with
  | nil => simp [interiorUpTo] at h
  | cons c cs ih =>
    by_cases hc : ciStarts closeMark (c :: cs) = true
    · unfold interiorUpTo at h
      rw [if_pos hc] at h
      cases h
      exact ⟨rfl, hc, fun j hj => absurd hj (by simp)⟩
    · unfold interiorUpTo at h
      rw [if_neg hc] at h
      cases hrec : interiorUpTo cs with
      | none => rw [hrec] at h; cases h
      | some t =>
        rw [hrec] at h
        cases h
        obtain ⟨ht, hcl, hmin⟩ := ih t hrec
        refine ⟨?_, ?_, ?_⟩
        · rw [List.length_cons, List.take_succ_cons, ← ht]
        · rw [List.length_cons, List.drop_succ_cons]
          exact hcl
        · intro j hj
          cases j with
          | zero =>
            rw [List.drop_zero]
            cases hx : ciStarts closeMark (c :: cs)
            · rfl
            · exact absurd hx hc
          | succ j' =>
            rw [List.drop_succ_cons]
            rw [List.length_cons] at hj
            exact hmin j' (by omega)

theorem interiorUpTo_complete (l : List Char) (j : Nat)
    (h : ciStarts closeMark (l.drop j) = true) :
    ∃ int, interiorUpTo l = some int := by
  induction l generalizing j with
  | nil =>
    rw [List.drop_nil] at h
    exact absurd h (by decide)
  | cons c cs ih =>
    by_cases hc : ciStarts closeMark (c :: cs) = true
    · exact ⟨[], by simp [interiorUpTo, hc]⟩
    · cases j with
      | zero =>
        rw [List.drop_zero] at h
        exact absurd h hc
      | succ j' =>
        rw [List.drop_succ_cons] at h
        obtain ⟨t, ht⟩ := ih j' h
        exact ⟨c :: t, by simp [interiorUpTo, hc, ht]⟩

theorem interiorUpTo_none (l : List Char) (h : interiorUpTo l = none) (j : Nat) :
    ciStarts closeMark (l.drop j) = false := by
  cases hx : ciStarts closeMark (l.drop j)
  · rfl
  · obtain ⟨t, ht⟩ := interiorUpTo_complete l j hx
    rw [ht] at h
    cases h

theorem fenceAtB_cons (c : Char) (cs : List Char) (i j : Nat) :
    fenceAtB (c :: cs) (i + 1) (j + 1) = fenceAtB cs i j := by
  unfold fenceAtB
  rw [List.drop_succ_cons, List.drop_succ_cons,
    show (decide (i + 1 + 7 ≤ j + 1)) = decide (i + 7 ≤ j) from
      decide_eq_decide.mpr (by omega)]

theorem fenceAtB_zero_right (t : List Char) (i : Nat) : fenceAtB t i 0 = false := by
  unfold fenceAtB
  rw [show decide (i + 7 ≤ 0) = false from decide_eq_false (by omega)]
  simp

theorem fenceAtB_zero_of_no_close (c : Char) (cs : List Char)
    (hrec : interiorUpTo ((c :: cs).drop 7) = none) (j : Nat) :
    fenceAtB (c :: cs) 0 j = false := by
  by_cases h7 : 0 + 7 ≤ j
  · have hcl := interiorUpTo_none _ hrec (j - 7)
    rw [List.drop_drop] at hcl
    rw [show 7 + (j - 7) = j from by omega] at hcl
    unfold fenceAtB
    rw [hcl]
    simp
  · unfold fenceAtB
    rw [decide_eq_false h7]
    simp

theorem fenceAtB_zero_of_no_open (c : Char) (cs : List Char)
    (ho : ciStarts openTag (c :: cs) = false) (j : Nat) :
    fenceAtB (c :: cs) 0 j = false := by
  unfold fenceAtB
  rw [List.drop_zero, ho]
  simp

theorem searchFence_some (t int : List Char) (h : searchFence t = some int) :
    ∃ i, ciStarts openTag (t.drop i) = true ∧ interiorUpTo (t.drop (i + 7)) = some int ∧
      ∀ i', i' < i → ∀ j', fenceAtB t i' j' = false := by
  induction t generalizing int with
  | nil => simp [searchFence] at h
  | cons c cs ih =>
    by_cases ho : ciStarts openTag (c :: cs) = true
    · unfold searchFence at h
      rw [if_pos ho] at h
      cases hrec : interiorUpTo ((c :: cs).drop 7) with
      | some interior =>
        rw [hrec] at h
        cases h
        exact ⟨0, by rw [List.drop_zero]; exact ho, by simpa using hrec,
          fun i' hi' => absurd hi' (by omega)⟩
      | none =>
        rw [hrec] at h
        obtain ⟨i0, h1, h2, h3⟩ := ih int h
        refine ⟨i0 + 1, ?_, ?_, ?_⟩
        · rw [List.drop_succ_cons]
          exact h1
        · rw [show i0 + 1 + 7 = (i0 + 7) + 1 from by omega, List.drop_succ_cons]
          exact h2
        · intro i' hi' j'
          cases i' with
          | zero => exact fenceAtB_zero_of_no_close c cs hrec j'
          | succ i'' =>
            cases j' with
            | zero => exact fenceAtB_zero_right _ _
            | succ j'' =>
              rw [fenceAtB_cons]
              exact h3 i'' (by omega) j''
    · unfold searchFence at h
      rw [if_neg ho] at h
      obtain ⟨i0, h1, h2, h3⟩ := ih int h
      have ho' : ciStarts openTag (c :: cs) = false := by
        cases hx : ciStarts openTag (c :: cs)
        · rfl
        · exact absurd hx ho
      refine ⟨i0 + 1, ?_, ?_, ?_⟩
      · rw [List.drop_succ_cons]
        exact h1
      · rw [show i0 + 1 + 7 = (i0 + 7) + 1 from by omega, List.drop_succ_cons]
        exact h2
      · intro i' hi' j'
        cases i' with
        | zero => exact fenceAtB_zero_of_no_open c cs ho' j'
        | succ i'' =>
          cases j' with
          | zero => exact fenceAtB_zero_right _ _
          | succ j'' =>
            rw [fenceAtB_cons]
            exact h3 i'' (by omega) j''

theorem searchFence_none (t : List Char) (h : searchFence t = none) :
    ∀ i j, fenceAtB t i j = false := by
  induction t with
  | nil =>
    intro i j
    unfold fenceAtB
    rw [List.drop_nil, List.drop_nil]
    simp [show ciStarts openTag ([] : List Char) = false from rfl]
  | cons c cs ih =>
    intro i j
    unfold searchFence at h
    by_cases ho : ciStarts openTag (c :: cs) = true
    · rw [if_pos ho] at h
      cases hrec : interiorUpTo ((c :: cs).drop 7) with
      | some interior => rw [hrec] at h; cases h
      | none =>
        rw [hrec] at h
        cases i with
        | zero => exact fenceAtB_zero_of_no_close c cs hrec j
        | succ i'' =>
          cases j with
          | zero => exact fenceAtB_zero_right _ _
          | succ j'' =>
            rw [fenceAtB_cons]
            exact ih h i'' j''
    · rw [if_neg ho] at h
      have ho' : ciStarts openTag (c :: cs) = false := by
        cases hx : ciStarts openTag (c :: cs)
        · rfl
        · exact absurd hx ho
      cases i with
      | zero => exact fenceAtB_zero_of_no_open c cs ho' j
      | succ i'' =>
        cases j with
        | zero => exact fenceAtB_zero_right _ _
        | succ j'' =>
          rw [fenceAtB_cons]
          exact ih h i'' j''

theorem fenceAtB_lt_length (t : List Char) (i j : Nat) (h : fenceAtB t i j = true) :
    i < t.length ∧ j < t.length := by
  unfold fenceAtB at h
  simp only [Bool.and_eq_true] at h
  obtain ⟨⟨hopen, _⟩, hclose⟩ := h
  constructor
  · by_contra hi
    rw [List.drop_eq_nil_iff.mpr (by omega)] at hopen
    exact absurd hopen (by decide)
  · by_contra hj
    rw [List.drop_eq_nil_iff.mpr (by omega)] at hclose
    exact absurd hclose (by decide)

theorem fence_of_interior (t : List Char) (i0 : Nat) (int : List Char)
    (hopen : ciStarts openTag (t.drop i0) = true)
    (hint : interiorUpTo (t.drop (i0 + 7)) = some int) :
    fenceAtB t i0 (i0 + 7 + int.length) = true := by
  obtain ⟨_, hclose, _⟩ := interiorUpTo_take _ _ hint
  rw [List.drop_drop] at hclose
  unfold fenceAtB
  rw [hopen, hclose, decide_eq_true (by omega : i0 + 7 ≤ i0 + 7 + int.length)]
  rfl

/-- C5: the artifact extractor returns the whitespace-trimmed interior
of the first ```` ```html ```` fence — leftmost opening position,
shortest interior — and falls back to the trimmed full input when no
fence exists; on the fence-free example it returns the input unchanged,
and on the fenced example it returns the trimmed interior. -/
theorem C5_extractor :
    (∀ t i j, isFirstFence t i j →
      extractHtml t = pyStrip ((t.drop (i + 7)).take (j - (i + 7)))) ∧
    (∀ t, (∀ i, i < t.length → ∀ j, j < t.length → fenceAtB t i j = false) →
      extractHtml t = pyStrip t) ∧
    extractHtml ("no fences here".toList) = "no fences here".toList ∧
    extractHtml ("pre ```html <p>x</p> ``` post".toList) = "<p>x</p>".toList := by
  refine ⟨?_, ?_, by decide, by decide⟩
  · rintro t i j ⟨hf, hminI, hminJ⟩
    cases hs : searchFence t with
    | none => simp [searchFence_none t hs i j] at hf
    | some int =>
      obtain ⟨i0, hopen0, hint0, hmin0⟩ := searchFence_some t int hs
      have hfence0 : fenceAtB t i0 (i0 + 7 + int.length) = true :=
        fence_of_interior t i0 int hopen0 hint0
      have hij : i0 = i := by
        rcases Nat.lt_trichotomy i0 i with hlt | heq | hgt
        · have hb := (fenceAtB_lt_length t i0 (i0 + 7 + int.length) hfence0).2
          simp [hminI i0 hlt (i0 + 7 + int.length) hb] at hfence0
        · exact heq
        · simp [hmin0 i hgt j] at hf
      subst hij
      obtain ⟨hintTake, hclose0, hintMin⟩ := interiorUpTo_take _ _ hint0
      have hjj : j = i0 + 7 + int.length := by
        have hle : j ≤ i0 + 7 + int.length := by
          by_contra hgt
          simp [hminJ (i0 + 7 + int.length) (by omega)] at hfence0
        have hge : i0 + 7 + int.length ≤ j := by
          by_contra hlt2
          unfold fenceAtB at hf
          simp only [Bool.and_eq_true, decide_eq_true_eq] at hf
          obtain ⟨⟨_, h7⟩, hcl⟩ := hf
          have hmm := hintMin (j - (i0 + 7)) (by omega)
          rw [List.drop_drop, show i0 + 7 + (j - (i0 + 7)) = j from by omega] at hmm
          rw [hmm] at hcl
          cases hcl
        omega
      subst hjj
      have hex : extractHtml t = pyStrip int := by
        unfold extractHtml
        rw [hs]
      rw [hex, show i0 + 7 + int.length - (i0 + 7) = int.length from by omega, ← hintTake]
  · intro t hb
    cases hs : searchFence t with
    | none =>
      unfold extractHtml
      rw [hs]
    | some int =>
      obtain ⟨i0, hopen0, hint0, _⟩ := searchFence_some t int hs
      have hfence0 := fence_of_interior t i0 int hopen0 hint0
      obtain ⟨hi, hj⟩ := fenceAtB_lt_length t _ _ hfence0
      simp [hb i0 hi _ hj] at hfence0

/-- Witness for C5: the fenced example has its first fence opening at
position 4 and closing at position 21, and the fence-free example takes
the fallback branch. -/
theorem C5_extractor_witness :
    extractHtml ("pre ```html <p>x</p> ``` post".toList) =
      pyStrip ((("pre ```html <p>x</p> ``` post".toList).drop (4 + 7)).take (21 - (4 + 7))) ∧
    extractHtml ("plain text".toList) = pyStrip ("plain text".toList) :=
  ⟨C5_extractor.1 ("pre ```html <p>x</p> ``` post".toList) 4 21 (by decide),
   C5_extractor.2.1 ("plain text".toList) (by decide)⟩

theorem stepMsg_count_le (st : LoopState) (m : Message) :
    (stepMsg st m).1.messageCount ≤ st.messageCount + 1 := by
  simp only [stepMsg]
  repeat' split
  all_goals simp

theorem stepMsg_none_le20 (st : LoopState) (m : Message) (h20 : st.messageCount ≤ 20) :
    (stepMsg st m).2 = none → (stepMsg st m).1.messageCount ≤ 20 := by
  simp only [stepMsg]
  repeat' split
  all_goals intro hx
  all_goals try simp at hx
  all_goals try simp
  all_goals omega

theorem stepMsg_not_exhausted (st : LoopState) (m : Message) :
    (stepMsg st m).2 ≠ some LoopStop.exhausted := by
  simp only [stepMsg]
  repeat' split
  all_goals simp

theorem stepMsg_safety_iff (st : LoopState) (m : Message) (hs : st.safetyReached = false) :
    ((stepMsg st m).1.safetyReached = true ↔ (stepMsg st m).2 = some LoopStop.safety) := by
  simp only [stepMsg]
  repeat' split
  all_goals simp [hs]

theorem runLoop_nil (st : LoopState) :
    runLoop st [] = Except.ok (st, LoopStop.exhausted) := rfl

theorem runLoop_cons_err (st : LoopState) (e : List Char) (rest : List StreamItem) :
    runLoop st (StreamItem.err e :: rest) = Except.error e := rfl

theorem runLoop_cons_msg_none (st : LoopState) (m : Message) (st1 : LoopState)
    (hstep : stepMsg st m = (st1, none)) (rest : List StreamItem) :
    runLoop st (StreamItem.msg m :: rest) = runLoop st1 rest := by
  simp only [runLoop, hstep]

theorem runLoop_cons_msg_some (st : LoopState) (m : Message) (st1 : LoopState)
    (stop1 : LoopStop) (hstep : stepMsg st m = (st1, some stop1)) (rest : List StreamItem) :
    runLoop st (StreamItem.msg m :: rest) = Except.ok (st1, stop1) := by
  simp only [runLoop, hstep]

theorem runLoop_count (items : List StreamItem) (st : LoopState) (h20 : st.messageCount ≤ 20)
    (st' : LoopState) (stop : LoopStop) (h : runLoop st items = Except.ok (st', stop)) :
    st'.messageCount ≤ 21 := by
  induction items generalizing st with
  | nil =>
    rw [runLoop_nil] at h
    simp only [Except.ok.injEq, Prod.mk.injEq] at h
    obtain ⟨h1, _⟩ := h
    subst h1
    omega
  | cons it rest ih =>
    cases it with
    | err e => rw [runLoop_cons_err] at h; cases h
    | msg m =>
      cases hstep : stepMsg st m with
      | mk st1 o =>
        cases o with
        | none =>
          rw [runLoop_cons_msg_none st m st1 hstep] at h
          have h1 : st1.messageCount ≤ 20 := by
            have h2 := stepMsg_none_le20 st m h20
            rw [hstep] at h2
            exact h2 rfl
          exact ih st1 h1 h
        | some stop1 =>
          rw [runLoop_cons_msg_some st m st1 stop1 hstep] at h
          simp only [Except.ok.injEq, Prod.mk.injEq] at h
          obtain ⟨h1, _⟩ := h
          subst h1
          have hle := stepMsg_count_le st m
          rw [hstep] at hle
          dsimp only at hle
          omega

theorem runLoop_safety (items : List StreamItem) (st : LoopState)
    (hs : st.safetyReached = false) (st' : LoopState) (stop : LoopStop)
    (h : runLoop st items = Except.ok (st', stop)) :
    (st'.safetyReached = true ↔ stop = LoopStop.safety) := by
  induction items generalizing st with
  | nil =>
    rw [runLoop_nil] at h
    simp only [Except.ok.injEq, Prod.mk.injEq] at h
    obtain ⟨h1, h2⟩ := h
    subst h1
    subst h2
    simp [hs]
  | cons it rest ih =>
    cases it with
    | err e => rw [runLoop_cons_err] at h; cases h
    | msg m =>
      cases hstep : stepMsg st m with
      | mk st1 o =>
        cases o with
        | none =>
          rw [runLoop_cons_msg_none st m st1 hstep] at h
          have h1 : st1.safetyReached = false := by
            cases hx : st1.safetyReached
            · rfl
            · have hiff := stepMsg_safety_iff st m hs
              rw [hstep] at hiff
              dsimp only at hiff
              exact absurd (hiff.mp hx) (by simp)
          exact ih st1 h1 h
        | some stop1 =>
          rw [runLoop_cons_msg_some st m st1 stop1 hstep] at h
          simp only [Except.ok.injEq, Prod.mk.injEq] at h
          obtain ⟨h1, h2⟩ := h
          subst h1
          subst h2
          have hiff := stepMsg_safety_iff st m hs
          rw [hstep] at hiff
          dsimp only at hiff
          simpa using hiff

theorem runLoop_stop_stable (items : List StreamItem) (st st' : LoopState) (stop : LoopStop)
    (h : runLoop st items = Except.ok (st', stop)) (hne : stop ≠ LoopStop.exhausted)
    (extra : List StreamItem) :
    runLoop st (items ++ extra) = Except.ok (st', stop) := by
  induction items generalizing st with
  | nil =>
    rw [runLoop_nil] at h
    simp only [Except.ok.injEq, Prod.mk.injEq] at h
    exact absurd h.2.symm hne
  | cons it rest ih =>
    cases it with
    | err e => rw [runLoop_cons_err] at h; cases h
    | msg m =>
      rw [List.cons_append]
      cases hstep : stepMsg st m with
      | mk st1 o =>
        cases o with
        | none =>
          rw [runLoop_cons_msg_none st m st1 hstep] at h
          rw [runLoop_cons_msg_none st m st1 hstep]
          exact ih st1 h
        | some stop1 =>
          rw [runLoop_cons_msg_some st m st1 stop1 hstep] at h
          rw [runLoop_cons_msg_some st m st1 stop1 hstep]
          exact h

theorem runLoop_append_exhausted (pre : List StreamItem) (st st' : LoopState)
    (h : runLoop st pre = Except.ok (st', LoopStop.exhausted)) (rest : List StreamItem) :
    runLoop st (pre ++ rest) = runLoop st' rest := by
  induction pre generalizing st with
  | nil =>
    rw [runLoop_nil] at h
    simp only [Except.ok.injEq, Prod.mk.injEq] at h
    rw [List.nil_append, h.1]
  | cons it pre' ih =>
    cases it with
    | err e => rw [runLoop_cons_err] at h; cases h
    | msg m =>
      rw [List.cons_append]
      cases hstep : stepMsg st m with
      | mk st1 o =>
        cases o with
        | none =>
          rw [runLoop_cons_msg_none st m st1 hstep] at h
          rw [runLoop_cons_msg_none st m st1 hstep]
          exact ih st1 h
        | some stop1 =>
          rw [runLoop_cons_msg_some st m st1 stop1 hstep] at h
          simp only [Except.ok.injEq, Prod.mk.injEq] at h
          exfalso
          have hne := stepMsg_not_exhausted st m
          rw [hstep] at hne
          dsimp only at hne
          rw [h.2] at hne
          exact hne rfl

theorem runMultiAgent_ok (env : RunEnv) (mode : Bool) (input : List Char)
    (stream : List StreamItem) (st : LoopState) (stop : LoopStop)
    (hl : runLoop (initialState input) stream = Except.ok (st, stop)) :
    runMultiAgent env mode input stream = Except.ok (finishRun env mode st) := by
  simp only [runMultiAgent, hl]

theorem runMultiAgent_err (env : RunEnv) (mode : Bool) (input : List Char)
    (stream : List StreamItem) (e : List Char)
    (hl : runLoop (initialState input) stream = Except.error e) :
    runMultiAgent env mode input stream = Except.error e := by
  simp only [runMultiAgent, hl]

theorem finishRun_messageCount (env : RunEnv) (mode : Bool) (st : LoopState) :
    (finishRun env mode st).messageCount = st.messageCount := by
  simp only [finishRun]
  repeat' split
  all_goals rfl

theorem finishRun_processed (env : RunEnv) (mode : Bool) (st : LoopState) :
    (finishRun env mode st).processed = st.processed := by
  simp only [finishRun]
  repeat' split
  all_goals rfl

theorem finishRun_history (env : RunEnv) (mode : Bool) (st : LoopState) :
    (finishRun env mode st).history = st.history := by
  simp only [finishRun]
  repeat' split
  all_goals rfl

theorem finishRun_safety (env : RunEnv) (mode : Bool) (st : LoopState) :
    ((finishRun env mode st).outcome = Outcome.safetyLimitReached ↔ st.safetyReached = true) ∧
    (st.safetyReached = true → (finishRun env mode st).events = []) := by
  simp only [finishRun]
  by_cases h : st.safetyReached = true
  · rw [if_pos h]
    simp [h]
  · rw [if_neg h]
    constructor
    · repeat' split
      all_goals simp [h]
    · intro hx
      exact absurd hx h

/-- C4: the driver loop never lets the per-run message count exceed 21:
the safety check fires on the inclusive comparison `count > 20` at turn
21, and once the safety-limit outcome is reached the run performs no
side effect and consumes no further stream item — appending anything to
the stream leaves the result unchanged. -/
theorem C4_safety_bound (env : RunEnv) (mode : Bool) (input : List Char)
    (stream : List StreamItem) (out : RunOutput)
    (h : runMultiAgent env mode input stream = Except.ok out) :
    out.messageCount ≤ 21 ∧
    (out.outcome = Outcome.safetyLimitReached →
      out.events = [] ∧
      ∀ extra, runMultiAgent env mode input (stream ++ extra) = Except.ok out) := by
  cases hl : runLoop (initialState input) stream with
  | error e =>
    rw [runMultiAgent_err env mode input stream e hl] at h
    cases h
  | ok p =>
    obtain ⟨st, stop⟩ := p
    rw [runMultiAgent_ok env mode input stream st stop hl] at h
    have hout : out = finishRun env mode st := by
      injection h with h2
      exact h2.symm
    subst hout
    have hcount := runLoop_count stream (initialState input) (by simp [initialState]) st stop hl
    refine ⟨by rw [finishRun_messageCount env mode st]; exact hcount, ?_⟩
    intro hsafe
    have hs : st.safetyReached = true := (finishRun_safety env mode st).1.mp hsafe
    refine ⟨(finishRun_safety env mode st).2 hs, ?_⟩
    intro extra
    have hstop : stop = LoopStop.safety :=
      (runLoop_safety stream (initialState input) (by simp [initialState]) st stop hl).mp hs
    have hstable := runLoop_stop_stable stream (initialState input) st stop hl
      (by rw [hstop]; intro hx; cases hx) extra
    exact runMultiAgent_ok env mode input (stream ++ extra) st stop hstable

/-- Witness for C4 on the empty stream. -/
theorem C4_safety_bound_witness :
    outEmptyRun.messageCount ≤ 21 ∧
    (outEmptyRun.outcome = Outcome.safetyLimitReached →
      outEmptyRun.events = [] ∧
      ∀ extra, runMultiAgent envRunSample false ("hi".toList) ([] ++ extra) =
        Except.ok outEmptyRun) :=
  C4_safety_bound envRunSample false ("hi".toList) [] outEmptyRun rfl

theorem countBA_nil : countBA [] = 0 := rfl

theorem countBA_cons (m : Message) (l : List Message) :
    countBA (m :: l) = (if m.name = some "BusinessAnalyst" then 1 else 0) + countBA l := by
  unfold countBA
  rw [List.filter_cons]
  by_cases h : m.name = some "BusinessAnalyst"
  · simp [h]
    omega
  · simp [h]

theorem countBA_append (a b : List Message) : countBA (a ++ b) = countBA a + countBA b := by
  unfold countBA
  rw [List.filter_append, List.length_append]

theorem hasConsecutiveBA_of_le_one (l : List Message) (h : countBA l ≤ 1) :
    hasConsecutiveBA l = false := by
  induction l with
  | nil => rfl
  | cons m1 rest ih =>
    cases rest with
    | nil => rfl
    | cons m2 rest2 =>
      rw [countBA_cons, countBA_cons] at h
      by_cases h1 : m1.name = some "BusinessAnalyst"
      · by_cases h2 : m2.name = some "BusinessAnalyst"
        · rw [if_pos h1, if_pos h2] at h
          omega
        · unfold hasConsecutiveBA
          rw [decide_eq_false h2]
          simp only [Bool.and_false, Bool.false_or]
          apply ih
          rw [countBA_cons, if_neg h2]
          rw [if_pos h1] at h
          omega
      · unfold hasConsecutiveBA
        rw [decide_eq_false h1]
        simp only [Bool.false_and, Bool.false_or]
        apply ih
        rw [countBA_cons]
        rw [if_neg h1] at h
        omega

theorem stepMsg_baInv (st : LoopState) (m : Message) (hm : m.name ≠ some "User")
    (hinv : baInv st) : baInv (stepMsg st m).1 := by
  obtain ⟨h0, h1, h2⟩ := hinv
  simp only [stepMsg]
  split
  · exact ⟨h0, h1, h2⟩
  · rename_i hskip
    by_cases hba : m.name = some "BusinessAnalyst"
    · have hask : st.baAsked = false := by
        cases hx : st.baAsked
        · rfl
        · exact absurd ⟨hx, hba⟩ hskip
      have hc0 : countBA st.processed = 0 := h0 hask
      have hcnt : countBA (st.processed ++ [m]) = 1 := by
        rw [countBA_append, countBA_cons, countBA_nil, hc0, if_pos hba]
      split
      · refine ⟨?_, ?_, ?_⟩
        · intro hf
          simp [hm, hba] at hf
        · simp [hcnt]
        · simp [hcnt, h2, hc0]
      · split
        · refine ⟨?_, ?_, ?_⟩
          · intro hf
            simp [hm, hba] at hf
          · simp [hcnt]
          · simp [hcnt, h2, hc0]
        · split
          · rename_i hsyn
            exact absurd hsyn.2 (by omega)
          · refine ⟨?_, ?_, ?_⟩
            · intro hf
              simp [hm, hba] at hf
            · simp [hcnt]
            · simp [hcnt, h2, hc0]
    · split
      · refine ⟨?_, ?_, ?_⟩
        · simpa [hm, hba, countBA_append, countBA_cons, countBA_nil] using h0
        · simpa [hba, countBA_append, countBA_cons, countBA_nil] using h1
        · simpa [hba, countBA_append, countBA_cons, countBA_nil] using h2
      · split
        · refine ⟨?_, ?_, ?_⟩
          · simpa [hm, hba, countBA_append, countBA_cons, countBA_nil] using h0
          · simpa [hba, countBA_append, countBA_cons, countBA_nil] using h1
          · simpa [hba, countBA_append, countBA_cons, countBA_nil] using h2
        · split
          · rename_i hsyn
            exact absurd hsyn.1 hba
          · refine ⟨?_, ?_, ?_⟩
            · simpa [hm, hba, countBA_append, countBA_cons, countBA_nil] using h0
            · simpa [hba, countBA_append, countBA_cons, countBA_nil] using h1
            · simpa [hba, countBA_append, countBA_cons, countBA_nil] using h2

theorem runLoop_baInv (items : List StreamItem)
    (hstream : ∀ m, StreamItem.msg m ∈ items → m.name ≠ some "User")
    (st : LoopState) (hinv : baInv st) (st' : LoopState) (stop : LoopStop)
    (h : runLoop st items = Except.ok (st', stop)) : baInv st' := by
  induction items generalizing st with
  | nil =>
    rw [runLoop_nil] at h
    simp only [Except.ok.injEq, Prod.mk.injEq] at h
    rw [← h.1]
    exact hinv
  | cons it rest ih =>
    cases it with
    | err e => rw [runLoop_cons_err] at h; cases h
    | msg m =>
      have hm : m.name ≠ some "User" := hstream m (List.mem_cons_self _ _)
      have hrest : ∀ m', StreamItem.msg m' ∈ rest → m'.name ≠ some "User" :=
        fun m' hmem => hstream m' (List.mem_cons_of_mem _ hmem)
      cases hstep : stepMsg st m with
      | mk st1 o =>
        have hinv1 : baInv st1 := by
          have := stepMsg_baInv st m hm hinv
          rw [hstep] at this
          exact this
        cases o with
        | none =>
          rw [runLoop_cons_msg_none st m st1 hstep] at h
          exact ih hrest st1 hinv1 h
        | some stop1 =>
          rw [runLoop_cons_msg_some st m st1 stop1 hstep] at h
          simp only [Except.ok.injEq, Prod.mk.injEq] at h
          rw [← h.1]
          exact hinv1

/-- C8 counterexample: the recorded history of a run can hold two
consecutive BusinessAnalyst messages with no human message between
them — the skip guard keeps the repeated message out of the processed
stream (it is not counted) but does not remove it from the recorded
history. -/
theorem C8_counterexample :
    runMultiAgent envRunSample false ("hi".toList)
      [StreamItem.msg baMsg1, StreamItem.msg baMsg2] = Except.ok outConsecutiveBA ∧
    hasConsecutiveBA outConsecutiveBA.history = true ∧
    countBA outConsecutiveBA.processed = 1 :=
  ⟨rfl, by decide, by decide⟩

/-- C8 amended: when the stream contains no message named `User` (as in
a real run, where only the three agents speak), the driver processes at
most one BusinessAnalyst message — repeated BusinessAnalyst turns are
skipped from the processed stream — so the processed stream never holds
two consecutive BusinessAnalyst messages; the recorded history, by
contrast, retains every yielded message. -/
theorem C8_no_consecutive_processed_BA (env : RunEnv) (mode : Bool) (input : List Char)
    (stream : List StreamItem)
    (hstream : ∀ it ∈ stream, itemNotUser it = true)
    (out : RunOutput) (h : runMultiAgent env mode input stream = Except.ok out) :
    countBA out.processed ≤ 1 ∧ hasConsecutiveBA out.processed = false := by
  cases hl : runLoop (initialState input) stream with
  | error e =>
    rw [runMultiAgent_err env mode input stream e hl] at h
    cases h
  | ok p =>
    obtain ⟨st, stop⟩ := p
    rw [runMultiAgent_ok env mode input stream st stop hl] at h
    have hout : out = finishRun env mode st := by
      injection h with h2
      exact h2.symm
    subst hout
    have hstream' : ∀ m, StreamItem.msg m ∈ stream → m.name ≠ some "User" := by
      intro m hmem
      have hx := hstream _ hmem
      simpa [itemNotUser] using hx
    have hinv0 : baInv (initialState input) :=
      ⟨fun _ => rfl, by simp [initialState, countBA_nil], rfl⟩
    have hinv := runLoop_baInv stream hstream' (initialState input) hinv0 st stop hl
    rw [finishRun_processed env mode st]
    exact ⟨hinv.2.1, hasConsecutiveBA_of_le_one _ hinv.2.1⟩

/-- Witness for C8 amended on the two-BusinessAnalyst stream. -/
theorem C8_no_consecutive_processed_BA_witness :
    countBA outConsecutiveBA.processed ≤ 1 ∧
    hasConsecutiveBA outConsecutiveBA.processed = false :=
  C8_no_consecutive_processed_BA envRunSample false ("hi".toList)
    [StreamItem.msg baMsg1, StreamItem.msg baMsg2] (by decide) outConsecutiveBA rfl

/-- C9 counterexample: a failing reply-generation call propagates out of
`run_multi_agent` as a raised error — the run result is the error
itself, not an Incomplete outcome descriptor. -/
theorem C9_counterexample :
    runMultiAgent envRunSample false ("hi".toList)
      [StreamItem.err ("network down".toList)] =
      Except.error ("network down".toList) := rfl

/-- C9 amended: a reply-generation failure reached by the loop leaves
`run_multi_agent` as a propagated error (whatever follows in the
stream), while the publish gate contains push failures: with a valid
artifact and a successful local save it returns the artifact descriptor
regardless of the push result. -/
theorem C9_failure_propagation (env : RunEnv) (mode : Bool) (input : List Char)
    (pre rest : List StreamItem) (e : List Char) (st' : LoopState)
    (hpre : runLoop (initialState input) pre = Except.ok (st', LoopStop.exhausted)) :
    runMultiAgent env mode input (pre ++ StreamItem.err e :: rest) = Except.error e ∧
    (∀ genv hist d html, gateApproves (d.getD ("APPROVED".toList)) = true →
      findHtml hist = some html → genv.writeOk = true →
      (handle_approval genv hist d).html = some html) := by
  constructor
  · have hrl : runLoop (initialState input) (pre ++ StreamItem.err e :: rest) =
        Except.error e := by
      rw [runLoop_append_exhausted pre (initialState input) st' hpre
        (StreamItem.err e :: rest)]
      exact runLoop_cons_err st' e rest
    exact runMultiAgent_err env mode input _ e hrl
  · intro genv hist d html hap hfind hw
    simp only [handle_approval, hap, hfind, hw, eq_self_iff_true, if_true]

/-- Witness for C9 amended: the failure arriving first propagates, and
a concrete approved gate call with a failing push still returns the
artifact. -/
theorem C9_failure_propagation_witness :
    runMultiAgent envRunSample false ("hi".toList)
      ([] ++ StreamItem.err ("quota".toList) :: []) = Except.error ("quota".toList) ∧
    (handle_approval envSample [builderMsg] (some ("APPROVED".toList))).html =
      some builderHtml :=
  ⟨(C9_failure_propagation envRunSample false ("hi".toList) [] [] ("quota".toList)
      (initialState ("hi".toList)) rfl).1,
   (C9_failure_propagation envRunSample false ("hi".toList) [] [] ("quota".toList)
      (initialState ("hi".toList)) rfl).2 envSample [builderMsg]
      (some ("APPROVED".toList)) builderHtml (by decide) (by decide) rfl⟩
